import Mathlib

/-!
Verification of the `express-session-etcd3` adapter (`src/express-session-etcd3.ts`).

The development shallowly embeds the adapter's data model and operations:

* `Json` models the JavaScript values a session record can hold once restricted to the
  JSON-serializable fragment the adapter round-trips through `JSON.stringify` / `JSON.parse`
  (numbers are modelled by their integral fragment `Int`).
* `stringifyJson` / `parseJson` model the serialization boundary; the parser accepts exactly
  the canonical texts the serializer emits, which is all the round-trip facts need.
* `JsNum` models a JavaScript number for TTL purposes (`nan` or a rational value).
* `Etcd3Store` models the adapter instance (configuration, the dynamically attached
  `ttl` attribute, and the `this` reference handed to ttl callables).
* Each adapter method (`get`, `set`, `touch`, `all`, `length`, `destroy`, `clear`) is embedded
  as a function of the etcd key/value state together with an `OpBehavior` describing how the
  external etcd3 client request resolves (success, rejection, or a synchronous throw while
  building the request).
-/

/-- JSON-serializable session values (the integral-number fragment). -/
inductive Json where
  | null
  | bool (b : Bool)
  | num (n : Int)
  | str (s : String)
  | arr (elems : List Json)
  | obj (fields : List (String × Json))

/-- The ten decimal digit characters. -/
def digitChar : Nat → Char
  | 0 => '0'
  | 1 => '1'
  | 2 => '2'
  | 3 => '3'
  | 4 => '4'
  | 5 => '5'
  | 6 => '6'
  | 7 => '7'
  | 8 => '8'
  | 9 => '9'
  | _ => '0'

/-- Fueled digit renderer; with fuel at least the value it renders all digits. -/
def natDigitsF : Nat → Nat → List Char
  | 0, n => [digitChar n]
  | f + 1, n => if n < 10 then [digitChar n] else natDigitsF f (n / 10) ++ [digitChar (n % 10)]

/-- Decimal digit list of a natural number (most significant first). -/
def natDigits (n : Nat) : List Char := natDigitsF n n

/-- Decimal rendering of an integer, as `JSON.stringify` renders integral numbers. -/
def intDigits (n : Int) : List Char :=
  if n < 0 then '-' :: natDigits n.natAbs else natDigits n.toNat

/-- Escape one character of a JSON string literal (delimiter and backslash). -/
def escChar (c : Char) : List Char :=
  if c = '\"' then ['\\', '\"'] else if c = '\\' then ['\\', '\\'] else [c]

/-- Escape the body of a JSON string literal. -/
def escStr : List Char → List Char
  | [] => []
  | c :: cs => escChar c ++ escStr cs

mutual

/-- Character stream emitted by `JSON.stringify` for a value. -/
def stringifyJ : Json → List Char
  | .null => "null".data
  | .bool true => "true".data
  | .bool false => "false".data
  | .num n => intDigits n
  | .str s => '\"' :: (escStr s.data ++ ['\"'])
  | .arr [] => ['[', ']']
  | .arr (x :: xs) => '[' :: (stringifyItems (x :: xs) ++ [']'])
  | .obj [] => ['\x7b', '\x7d']
  | .obj (f :: fs) => '\x7b' :: (stringifyFields (f :: fs) ++ ['\x7d'])

/-- Comma-separated rendering of an array body. -/
def stringifyItems : List Json → List Char
  | [] => []
  | [x] => stringifyJ x
  | x :: y :: ys => stringifyJ x ++ ',' :: stringifyItems (y :: ys)

/-- Comma-separated rendering of an object body. -/
def stringifyFields : List (String × Json) → List Char
  | [] => []
  | [(k, v)] => '\"' :: (escStr k.data ++ '\"' :: ':' :: stringifyJ v)
  | (k, v) :: f :: fs =>
      '\"' :: (escStr k.data ++ '\"' :: ':' :: (stringifyJ v ++ ',' :: stringifyFields (f :: fs)))

end

/-- Whether a character is a decimal digit. -/
def isDig (c : Char) : Bool :=
  48 ≤ c.toNat && c.toNat ≤ 57

/-- Numeric value of a digit character. -/
def digVal (c : Char) : Nat := c.toNat - 48

/-- Greedily read a nonempty run of digits as a natural number. -/
def parseNatTok (cs : List Char) : Option (Nat × List Char) :=
  if (cs.takeWhile isDig).isEmpty then none
  else some ((cs.takeWhile isDig).foldl (fun a c => a * 10 + digVal c) 0, cs.dropWhile isDig)

/-- Read an optionally negated digit run as an integer. -/
def parseIntTok (cs : List Char) : Option (Int × List Char) :=
  match cs with
  | [] => none
  | c :: rest =>
    if c = '-' then (parseNatTok rest).map (fun p => (-(p.1 : Int), p.2))
    else (parseNatTok (c :: rest)).map (fun p => ((p.1 : Int), p.2))

/-- Fueled reader of a JSON string body up to its closing quote, undoing `escChar`. -/
def parseStrBodyF : Nat → List Char → Option (List Char × List Char)
  | 0, _ => none
  | _ + 1, [] => none
  | f + 1, c :: rest =>
    if c = '\"' then some ([], rest)
    else if c = '\\' then
      match rest with
      | [] => none
      | d :: rest2 =>
        if d = '\"' || d = '\\' then
          (parseStrBodyF f rest2).map (fun p => (d :: p.1, p.2))
        else none
    else (parseStrBodyF f rest).map (fun p => (c :: p.1, p.2))

/-- Read a JSON string body up to its closing quote (with always-sufficient fuel). -/
def parseStrBody (cs : List Char) : Option (List Char × List Char) :=
  parseStrBodyF (cs.length + 1) cs

/-- Whether the stream begins like a JSON number token. -/
def isNumStart : List Char → Bool
  | [] => false
  | c :: _ => isDig c || c = '-'

/-- Whether the stream begins with the given character. -/
def headIs (cs : List Char) (c : Char) : Bool :=
  match cs with
  | [] => false
  | d :: _ => d = c

/-- Whether the stream begins with a digit (would extend a number token). -/
def digStart : List Char → Bool
  | [] => false
  | c :: _ => isDig c

mutual

/-- Fueled recursive-descent parser for the canonical texts `stringifyJ` emits. -/
def parseVal : Nat → List Char → Option (Json × List Char)
  | 0, _ => none
  | f + 1, cs =>
    if isNumStart cs then
      (parseIntTok cs).map (fun p => (Json.num p.1, p.2))
    else
      match cs with
      | 'n' :: 'u' :: 'l' :: 'l' :: rest => some (Json.null, rest)
      | 't' :: 'r' :: 'u' :: 'e' :: rest => some (Json.bool true, rest)
      | 'f' :: 'a' :: 'l' :: 's' :: 'e' :: rest => some (Json.bool false, rest)
      | '\"' :: rest => (parseStrBody rest).map (fun p => (Json.str ⟨p.1⟩, p.2))
      | '[' :: rest =>
        if headIs rest ']' then some (Json.arr [], rest.tail)
        else (parseItems f rest).map (fun p => (Json.arr p.1, p.2))
      | '\x7b' :: rest =>
        if headIs rest '\x7d' then some (Json.obj [], rest.tail)
        else (parseFields f rest).map (fun p => (Json.obj p.1, p.2))
      | _ => none

/-- Parse the body of a nonempty array up to and including its closing bracket. -/
def parseItems : Nat → List Char → Option (List Json × List Char)
  | 0, _ => none
  | f + 1, cs =>
    match parseVal f cs with
    | none => none
    | some (v, r) =>
      match r with
      | ',' :: r2 => (parseItems f r2).map (fun p => (v :: p.1, p.2))
      | ']' :: r2 => some ([v], r2)
      | _ => none

/-- Parse the body of a nonempty object up to and including its closing brace. -/
def parseFields : Nat → List Char → Option (List (String × Json) × List Char)
  | 0, _ => none
  | f + 1, cs =>
    match cs with
    | '\"' :: rest =>
      match parseStrBody rest with
      | none => none
      | some (kcs, r1) =>
        match r1 with
        | ':' :: r2 =>
          match parseVal f r2 with
          | none => none
          | some (v, r3) =>
            match r3 with
            | ',' :: r4 => (parseFields f r4).map (fun p => ((⟨kcs⟩, v) :: p.1, p.2))
            | '\x7d' :: r4 => some ([(⟨kcs⟩, v)], r4)
            | _ => none
        | _ => none
    | _ => none

end

/-- Serialize a session value; models `JSON.stringify(session)`. -/
def stringifyJson (j : Json) : String := ⟨stringifyJ j⟩

/-- Deserialize a stored text; models the `JSON.parse` done by the client's `json()`.
Fails (`none`) on any text outside the canonical image of `stringifyJson`. -/
def parseJson (s : String) : Option Json :=
  match parseVal (2 * s.data.length + 1) s.data with
  | some (j, []) => some j
  | _ => none

/-- A JavaScript number for TTL purposes: `NaN` or a (rational) value. -/
inductive JsNum where
  | nan
  | val (q : ℚ)
deriving DecidableEq

/-- JavaScript `>` on numbers: any comparison with `NaN` is false. -/
def jsGtB : JsNum → JsNum → Bool
  | .nan, _ => false
  | _, .nan => false
  | .val a, .val b => decide (b < a)

/-- JavaScript whitespace stripped by `Number(string)`. -/
def isWsChar (c : Char) : Bool :=
  c = ' ' || c = '\t' || c = '\n' || c = '\r' || c = '\x0b' || c = '\x0c'

/-- Digit-run value used by the numeric-string parser. -/
def digitsToNat (ds : List Char) : Nat :=
  ds.foldl (fun a c => a * 10 + digVal c) 0

/-- Unsigned decimal body accepted by `Number(string)` (integer part, optional fraction). -/
def parseDecBody (cs : List Char) : Option ℚ :=
  let ip := cs.takeWhile isDig
  let r1 := cs.dropWhile isDig
  match r1 with
  | [] => if ip.isEmpty then none else some ((digitsToNat ip : ℚ))
  | '.' :: fr =>
    let fp := fr.takeWhile isDig
    let r2 := fr.dropWhile isDig
    if r2.isEmpty then
      if ip.isEmpty && fp.isEmpty then none
      else some ((digitsToNat ip : ℚ) + (digitsToNat fp : ℚ) / (10 : ℚ) ^ fp.length)
    else none
  | _ => none

/-- Model of the JavaScript `Number(string)` coercion on its decimal fragment:
trims whitespace, maps the empty string to `0`, accepts an optional sign followed
by a decimal body, and yields `NaN` for everything else. -/
def jsStringToNumber (s : String) : JsNum :=
  let cs := ((s.data.dropWhile isWsChar).reverse.dropWhile isWsChar).reverse
  match cs with
  | [] => JsNum.val 0
  | '+' :: rest =>
    match parseDecBody rest with
    | some q => JsNum.val q
    | none => JsNum.nan
  | '-' :: rest =>
    match parseDecBody rest with
    | some q => JsNum.val (-q)
    | none => JsNum.nan
  | _ =>
    match parseDecBody cs with
    | some q => JsNum.val q
    | none => JsNum.nan

/-- Errors surfaced by the adapter: thrown `TypeError`s, `JSON.parse` failures,
and failures coming from the etcd3 client (network, server, mocks). -/
inductive JsError where
  | typeError (msg : String)
  | syntaxError
  | external (msg : String)
deriving DecidableEq

/-- First-match field lookup in a JavaScript object literal. -/
def lookupField : List (String × Json) → String → Option Json
  | [], _ => none
  | (k, v) :: fs, name => if k = name then some v else lookupField fs name

/-- JavaScript property access `v[name]`: throws a `TypeError` on `null`,
returns `undefined` (`none`) when the property is absent or the value is not an object. -/
def jsMember : Json → String → Except JsError (Option Json)
  | .null, _ => .error (JsError.typeError "property access on null")
  | .obj fs, name => .ok (lookupField fs name)
  | _, _ => .ok none

/-- One day in seconds (source constant `oneDay`). -/
def oneDay : ℚ := 86400

/-- Max TTL time to lease on the etcd3 client in seconds (source constant `maxTTL`). -/
def maxTTL : ℚ := 6442450

/-- Token standing for the adapter object handed as `this` to a ttl callable. -/
structure AdapterRef where
  tag : Nat
deriving DecidableEq

/-- The dynamically attached `store.ttl` attribute, classified by JavaScript `typeof`:
a number, a string, a callable, or any other value (with its truthiness). -/
inductive StoreTtl where
  | num (n : JsNum)
  | str (s : String)
  | func (f : AdapterRef → Json → String → JsNum)
  | other (truthy : Bool)

/-- Configuration options of the adapter (`Etcd3StoreOptions`): the optional key
namespace and the skip-touch flag. Connection parameters are irrelevant here. -/
structure Etcd3StoreOptions where
  pfx : Option String
  skipTouch : Bool

/-- Default configuration values (source `defaultOptions`). -/
def defaultOptions : Etcd3StoreOptions :=
  { pfx := some "sess", skipTouch := false }

/-- The adapter instance: its configuration, its `ttl` attribute, and its own reference. -/
structure Etcd3Store where
  config : Etcd3StoreOptions
  storeTtl : StoreTtl
  self : AdapterRef

/-- Key construction (source `key`): `(this.config.prefix || defaultOptions.prefix) + '/' + sid`.
A configured namespace falls back to `"sess"` exactly when it is absent or the
falsy empty string. -/
def key (config : Etcd3StoreOptions) (sid : String := "") : String :=
  (match config.pfx with
   | some p => if p = "" then "sess" else p
   | none => "sess") ++ "/" ++ sid

/-- `getRawTTL`: resolve the TTL from the data sources, in source order. -/
def getRawTTL (store : Etcd3Store) (sess : Json) (sid : String) : Except JsError JsNum :=
  match store.storeTtl with
  | .num n => .ok n
  | .str s => .ok (jsStringToNumber s)
  | .func f => .ok (f store.self sess sid)
  | .other truthy =>
    if truthy then .error (JsError.typeError "`store.ttl` must be a number or function.")
    else
      match jsMember sess "cookie" with
      | .error e => .error e
      | .ok none => .error (JsError.typeError "property access on undefined")
      | .ok (some cookie) =>
        match jsMember cookie "maxAge" with
        | .error e => .error e
        | .ok (some (Json.num m)) => .ok (JsNum.val ((m.fdiv 1000 : Int) : ℚ))
        | .ok _ => .ok (JsNum.val oneDay)

/-- `getTTL`: the raw TTL capped at `maxTTL` by `rawTTL > maxTTL ? maxTTL : rawTTL`. -/
def getTTL (store : Etcd3Store) (sess : Json) (sid : String) : Except JsError JsNum :=
  match getRawTTL store sess sid with
  | .error e => .error e
  | .ok raw => .ok (if jsGtB raw (JsNum.val maxTTL) then JsNum.val maxTTL else raw)

/-- The etcd key/value state visible to the adapter: keys mapped to stored texts. -/
def EtcdState := List (String × String)

/-- Point lookup in the state. -/
def lookupKV : EtcdState → String → Option String
  | [], _ => none
  | (k, v) :: st, k2 => if k = k2 then some v else lookupKV st k2

/-- Point put: overwrites the value stored at the key. -/
def putKV (st : EtcdState) (k v : String) : EtcdState :=
  (k, v) :: st.filter (fun e => decide (e.1 ≠ k))

/-- Whether string `s` starts with `pre`. -/
def strHasPfx (s pre : String) : Bool :=
  pre.data.isPrefixOf s.data

/-- How the single asynchronous etcd3 client request of one operation turns out:
a synchronous throw while the request is built, a rejected promise, or success. -/
inductive OpBehavior where
  | syncThrow (e : JsError)
  | reject (e : JsError)
  | resolve

/-- One invocation of the caller-supplied completion callback. -/
structure CbCall where
  err : Option JsError
  val : Json

/-- Client-visible events of a `set`/`touch` call, in order. -/
inductive Ev where
  | lease (ttl : JsNum)
  | put (k v : String)
  | release
  | cb (c : CbCall)

/-- Result of running `set`/`touch`: either an exception escaping the method
synchronously, or a completed run with its event trace and resulting state. -/
inductive SetOutcome where
  | thrown (e : JsError)
  | completed (trace : List Ev) (st : EtcdState)

/-- The `get` operation: fetch `key(sid)`, `json()` it, translate to the callback. -/
def Etcd3Store.get (store : Etcd3Store) (st : EtcdState) (b : OpBehavior) (sid : String) :
    List CbCall :=
  match b with
  | .syncThrow e => [⟨some e, Json.null⟩]
  | .reject e => [⟨some e, Json.null⟩]
  | .resolve =>
    match lookupKV st (key store.config sid) with
    | none => [⟨none, Json.null⟩]
    | some raw =>
      match parseJson raw with
      | some j => [⟨none, j⟩]
      | none => [⟨some JsError.syntaxError, Json.null⟩]

/-- The `set` operation. The TTL is resolved before the `try` block, so a TTL
resolution error escapes as a synchronous throw; inside the `try`, the client
leases, puts the serialized record, and on success releases the lease before
invoking the callback. -/
def Etcd3Store.set (store : Etcd3Store) (st : EtcdState) (b : OpBehavior) (sid : String)
    (sess : Json) : SetOutcome :=
  match getTTL store sess sid with
  | .error e => .thrown e
  | .ok ttl =>
    match b with
    | .syncThrow e => .completed [.cb ⟨some e, Json.null⟩] st
    | .reject e =>
      .completed
        [.lease ttl, .put (key store.config sid) (stringifyJson sess), .cb ⟨some e, Json.null⟩] st
    | .resolve =>
      .completed
        [.lease ttl, .put (key store.config sid) (stringifyJson sess), .release,
          .cb ⟨none, Json.null⟩]
        (putKV st (key store.config sid) (stringifyJson sess))

/-- The `touch` operation: succeed immediately when `skipTouch` is configured,
otherwise delegate to `set`. -/
def Etcd3Store.touch (store : Etcd3Store) (st : EtcdState) (b : OpBehavior) (sid : String)
    (sess : Json) : SetOutcome :=
  if store.config.skipTouch then .completed [.cb ⟨none, Json.null⟩] st
  else store.set st b sid sess

/-- Entries visible to the namespace scan of `all`/`length`/`clear`: keys starting
with `key("")`, i.e. the configured namespace followed by `/`. -/
def observedEntries (store : Etcd3Store) (st : EtcdState) : EtcdState :=
  st.filter (fun e => strHasPfx e.1 (key store.config ""))

/-- `json()` over a scan result: deserialize every stored text, failing if any fails. -/
def parseAll : List (String × String) → Option (List Json)
  | [] => some []
  | (_, v) :: rest =>
    match parseJson v, parseAll rest with
    | some j, some js => some (j :: js)
    | _, _ => none

/-- The `all` operation: scan the namespace, `json()` the values, return them. -/
def Etcd3Store.all (store : Etcd3Store) (st : EtcdState) (b : OpBehavior) : List CbCall :=
  match b with
  | .syncThrow e => [⟨some e, Json.null⟩]
  | .reject e => [⟨some e, Json.null⟩]
  | .resolve =>
    match parseAll (observedEntries store st) with
    | some js => [⟨none, Json.arr js⟩]
    | none => [⟨some JsError.syntaxError, Json.null⟩]

/-- The `length` operation: count the keys in the namespace. -/
def Etcd3Store.length (store : Etcd3Store) (st : EtcdState) (b : OpBehavior) : List CbCall :=
  match b with
  | .syncThrow e => [⟨some e, Json.null⟩]
  | .reject e => [⟨some e, Json.null⟩]
  | .resolve => [⟨none, Json.num ((observedEntries store st).length : Int)⟩]

/-- The `destroy` operation: `delete().prefix(key(sid))` — a namespace delete of
every key starting with `key(sid)` — then the callback. -/
def Etcd3Store.destroy (store : Etcd3Store) (st : EtcdState) (b : OpBehavior) (sid : String) :
    List CbCall × EtcdState :=
  match b with
  | .syncThrow e => ([⟨some e, Json.null⟩], st)
  | .reject e => ([⟨some e, Json.null⟩], st)
  | .resolve =>
    ([⟨none, Json.null⟩], st.filter (fun e => !(strHasPfx e.1 (key store.config sid))))

/-- The `clear` operation: delete every key in the configured namespace. -/
def Etcd3Store.clear (store : Etcd3Store) (st : EtcdState) (b : OpBehavior) :
    List CbCall × EtcdState :=
  match b with
  | .syncThrow e => ([⟨some e, Json.null⟩], st)
  | .reject e => ([⟨some e, Json.null⟩], st)
  | .resolve =>
    ([⟨none, Json.null⟩], st.filter (fun e => !(strHasPfx e.1 (key store.config ""))))

/-- The record's `cookie.maxAge` when the cookie carries a numeric `maxAge`;
reference reading used by the specification's TTL rule. -/
def sessionCookieMaxAge (sess : Json) : Option Int :=
  match sess with
  | .obj fs =>
    match lookupField fs "cookie" with
    | some (.obj cfs) =>
      match lookupField cfs "maxAge" with
      | some (.num m) => some m
      | _ => none
    | _ => none
  | _ => none

/-- Modelled from the spec: the reference TTL resolution of claim C1, written from the
specification's enumeration — store-level number, numeric parse of a string, result of a
callable invoked with (adapter, record, sid), a type error on any other truthy value,
else `floor(maxAge / 1000)` from a numeric cookie `maxAge`, else one day — finally capped
at the maximum lease duration 6442450, never rejected for being too large. -/
def specResolveTTL (store : Etcd3Store) (sess : Json) (sid : String) : Except JsError JsNum :=
  let raw : Except JsError JsNum :=
    match store.storeTtl with
    | .num n => .ok n
    | .str s => .ok (jsStringToNumber s)
    | .func f => .ok (f store.self sess sid)
    | .other truthy =>
      if truthy then .error (JsError.typeError "`store.ttl` must be a number or function.")
      else
        match sessionCookieMaxAge sess with
        | some m => .ok (JsNum.val ((m.fdiv 1000 : Int) : ℚ))
        | none => .ok (JsNum.val 86400)
  match raw with
  | .error e => .error e
  | .ok r => .ok (if jsGtB r (JsNum.val 6442450) then JsNum.val 6442450 else r)

/-- A session record as the middleware framework shapes it: an object whose
`cookie` field is itself an object. -/
def isWfSession (sess : Json) : Bool :=
  match sess with
  | .obj fs =>
    match lookupField fs "cookie" with
    | some (.obj _) => true
    | _ => false
  | _ => false

theorem digitChar_isDig (d : Nat) : isDig (digitChar d) = true := by
  rcases d with _|_|_|_|_|_|_|_|_|_|d <;> rfl

theorem digVal_digitChar (d : Nat) (h : d < 10) : digVal (digitChar d) = d := by
  interval_cases d <;> decide

theorem natDigitsF_congr (f : Nat) : ∀ g n, n ≤ f → n ≤ g → natDigitsF f n = natDigitsF g n := by
  induction f with
  | zero =>
    intro g n hf _
    interval_cases n
    cases g with
    | zero => rfl
    | succ g => simp [natDigitsF]
  | succ f ih =>
    intro g n hf hg
    cases g with
    | zero =>
      interval_cases n
      simp [natDigitsF]
    | succ g =>
      simp only [natDigitsF]
      by_cases h : n < 10
      · simp [h]
      · simp only [h, if_false]
        rw [ih g (n / 10) (by omega) (by omega)]

theorem natDigits_eq (n : Nat) :
    natDigits n = if n < 10 then [digitChar n] else natDigits (n / 10) ++ [digitChar (n % 10)] := by
  cases n with
  | zero => simp [natDigits, natDigitsF]
  | succ m =>
    show natDigitsF (m + 1) (m + 1) = _
    simp only [natDigitsF]
    by_cases h : m + 1 < 10
    · simp [h]
    · simp only [h, if_false]
      rw [natDigitsF_congr m ((m + 1) / 10) ((m + 1) / 10) (by omega) (by omega)]
      rfl

theorem natDigits_all_dig (n : Nat) : ∀ c ∈ natDigits n, isDig c = true := by
  induction n using Nat.strong_induction_on with
  | _ n ih =>
    rw [natDigits_eq]
    by_cases h : n < 10
    · simp [h, digitChar_isDig]
    · simp only [h, if_false]
      intro c hc
      rcases List.mem_append.1 hc with h1 | h1
      · exact ih (n / 10) (by omega) c h1
      · simp at h1
        simp [h1, digitChar_isDig]

theorem natDigits_cons (n : Nat) : ∃ c cs, natDigits n = c :: cs ∧ isDig c = true := by
  induction n using Nat.strong_induction_on with
  | _ n ih =>
    rw [natDigits_eq]
    by_cases h : n < 10
    · exact ⟨digitChar n, [], by simp [h], digitChar_isDig n⟩
    · obtain ⟨c, cs, hcons, hdig⟩ := ih (n / 10) (by omega)
      exact ⟨c, cs ++ [digitChar (n % 10)], by simp [h, hcons], hdig⟩

theorem takeWhile_dig_append (xs : List Char) (rest : List Char)
    (hxs : ∀ c ∈ xs, isDig c = true) (hrest : digStart rest = false) :
    (xs ++ rest).takeWhile isDig = xs ∧ (xs ++ rest).dropWhile isDig = rest := by
  induction xs with
  | nil =>
    simp only [List.nil_append]
    cases rest with
    | nil => simp
    | cons c cs =>
      simp only [digStart] at hrest
      simp [List.takeWhile_cons, List.dropWhile_cons, hrest]
  | cons x xs ih =>
    have hx : isDig x = true := hxs x (by simp)
    have hxs' : ∀ c ∈ xs, isDig c = true := fun c hc => hxs c (by simp [hc])
    obtain ⟨h1, h2⟩ := ih hxs'
    simp [List.takeWhile_cons, List.dropWhile_cons, hx, h1, h2]

theorem natDigits_foldl (n : Nat) :
    ∀ a : Nat, (natDigits n).foldl (fun a c => a * 10 + digVal c) a =
      a * 10 ^ (natDigits n).length + n := by
  induction n using Nat.strong_induction_on with
  | _ n ih =>
    intro a
    rw [natDigits_eq]
    by_cases h : n < 10
    · simp [h, digVal_digitChar n h]
    · simp only [h, if_false]
      rw [List.foldl_append, List.length_append]
      rw [ih (n / 10) (by omega) a]
      simp only [List.foldl, List.length_cons, List.length_nil]
      rw [digVal_digitChar (n % 10) (by omega)]
      generalize (natDigits (n / 10)).length = L
      rw [pow_succ, ← mul_assoc]
      generalize a * 10 ^ L = A
      omega

theorem parseNatTok_natDigits (n : Nat) (rest : List Char) (hrest : digStart rest = false) :
    parseNatTok (natDigits n ++ rest) = some (n, rest) := by
  obtain ⟨htw, hdw⟩ := takeWhile_dig_append (natDigits n) rest (natDigits_all_dig n) hrest
  obtain ⟨c, cs, hcons, _⟩ := natDigits_cons n
  have hne : (natDigits n).isEmpty = false := by simp [hcons]
  simp only [parseNatTok, htw, hdw, hne, Bool.false_eq_true, if_false]
  rw [natDigits_foldl n 0]
  simp

theorem parseIntTok_intDigits (n : Int) (rest : List Char) (hrest : digStart rest = false) :
    parseIntTok (intDigits n ++ rest) = some (n, rest) := by
  by_cases h : n < 0
  · rw [intDigits, if_pos h, List.cons_append]
    simp only [parseIntTok]
    rw [if_pos trivial, parseNatTok_natDigits n.natAbs rest hrest]
    simp only [Option.map]
    congr 2
    omega
  · rw [intDigits, if_neg h]
    obtain ⟨c, cs, hcons, hdig⟩ := natDigits_cons n.toNat
    rw [hcons, List.cons_append]
    simp only [parseIntTok]
    have hcne : ¬ c = '-' := by
      intro hc
      subst hc
      exact absurd hdig (by decide)
    rw [if_neg hcne, ← List.cons_append, ← hcons, parseNatTok_natDigits n.toNat rest hrest]
    simp only [Option.map]
    congr 2
    omega

theorem escChar_length_pos (c : Char) : 1 ≤ (escChar c).length := by
  rw [escChar]
  by_cases h1 : c = '\"'
  · simp [h1]
  · by_cases h2 : c = '\\' <;> simp [h1, h2]

theorem length_le_escStr (s : List Char) : s.length ≤ (escStr s).length := by
  induction s with
  | nil => simp [escStr]
  | cons c cs ih =>
    have h := escChar_length_pos c
    simp only [escStr, List.length_append, List.length_cons]
    omega

theorem parseStrBodyF_escStr (s : List Char) :
    ∀ f rest, s.length + 1 ≤ f → parseStrBodyF f (escStr s ++ '\"' :: rest) = some (s, rest) := by
  induction s with
  | nil =>
    intro f rest hf
    obtain ⟨f, rfl⟩ : ∃ g, f = g + 1 := ⟨f - 1, by omega⟩
    rfl
  | cons c cs ih =>
    intro f rest hf
    obtain ⟨f, rfl⟩ : ∃ g, f = g + 1 := ⟨f - 1, by omega⟩
    simp only [List.length_cons] at hf
    by_cases h1 : c = '\"'
    · subst h1
      have step : parseStrBodyF (f + 1) (escStr ('\"' :: cs) ++ '\"' :: rest) =
          (parseStrBodyF f (escStr cs ++ '\"' :: rest)).map (fun p => ('\"' :: p.1, p.2)) := rfl
      rw [step, ih f rest (by omega)]
      rfl
    · by_cases h2 : c = '\\'
      · subst h2
        have step : parseStrBodyF (f + 1) (escStr ('\\' :: cs) ++ '\"' :: rest) =
            (parseStrBodyF f (escStr cs ++ '\"' :: rest)).map (fun p => ('\\' :: p.1, p.2)) := rfl
        rw [step, ih f rest (by omega)]
        rfl
      · have hesc : escStr (c :: cs) = c :: escStr cs := by
          show escChar c ++ escStr cs = _
          rw [escChar, if_neg h1, if_neg h2]
          rfl
        rw [hesc, List.cons_append]
        simp only [parseStrBodyF]
        rw [if_neg h1, if_neg h2, ih f rest (by omega)]
        rfl

theorem parseStrBody_escStr (s : List Char) (rest : List Char) :
    parseStrBody (escStr s ++ '\"' :: rest) = some (s, rest) := by
  have h := length_le_escStr s
  refine parseStrBodyF_escStr s _ rest ?_
  simp only [List.length_append, List.length_cons]
  omega

theorem stringifyJ_cons (j : Json) :
    ∃ c cs, stringifyJ j = c :: cs ∧
      (isDig c = true ∨ c = '-' ∨ c = 'n' ∨ c = 't' ∨ c = 'f' ∨ c = '\"' ∨ c = '[' ∨
        c = '\x7b') := by
  cases j with
  | null => exact ⟨'n', _, rfl, by decide⟩
  | bool b =>
    cases b with
    | false => exact ⟨'f', _, rfl, by decide⟩
    | true => exact ⟨'t', _, rfl, by decide⟩
  | num n =>
    by_cases h : n < 0
    · refine ⟨'-', natDigits n.natAbs, ?_, by decide⟩
      show intDigits n = _
      rw [intDigits, if_pos h]
    · obtain ⟨c, cs, hcons, hdig⟩ := natDigits_cons n.toNat
      refine ⟨c, cs, ?_, Or.inl hdig⟩
      show intDigits n = _
      rw [intDigits, if_neg h, hcons]
  | str s => exact ⟨'\"', _, rfl, by decide⟩
  | arr xs =>
    cases xs with
    | nil => exact ⟨'[', _, rfl, by decide⟩
    | cons x xs => exact ⟨'[', _, rfl, by decide⟩
  | obj fs =>
    cases fs with
    | nil => exact ⟨'\x7b', _, rfl, by decide⟩
    | cons f fs => exact ⟨'\x7b', _, rfl, by decide⟩

theorem isNumStart_intDigits (n : Int) (rest : List Char) :
    isNumStart (intDigits n ++ rest) = true := by
  by_cases h : n < 0
  · rw [intDigits, if_pos h]
    rfl
  · rw [intDigits, if_neg h]
    obtain ⟨c, cs, hcons, hdig⟩ := natDigits_cons n.toNat
    rw [hcons, List.cons_append]
    simp [isNumStart, hdig]

theorem stringifyJ_head_not_close (j : Json) (rest : List Char) :
    headIs (stringifyJ j ++ rest) ']' = false ∧ headIs (stringifyJ j ++ rest) '\x7d' = false := by
  obtain ⟨c, cs, hcons, hd⟩ := stringifyJ_cons j
  rw [hcons, List.cons_append]
  constructor <;>
    · simp only [headIs, decide_eq_false_iff_not]
      intro hEq
      subst hEq
      rcases hd with h | h | h | h | h | h | h | h <;> exact absurd h (by decide)

theorem stringifyJ_length_pos (j : Json) : 1 ≤ (stringifyJ j).length := by
  obtain ⟨c, cs, hcons, _⟩ := stringifyJ_cons j
  rw [hcons]
  simp

theorem parseVal_numStart (f : Nat) (cs : List Char) (h : isNumStart cs = true) :
    parseVal (f + 1) cs = (parseIntTok cs).map (fun p => (Json.num p.1, p.2)) := by
  simp [parseVal, h]

theorem stringifyItems_head_not_close (x : Json) (xs : List Json) (r : List Char) :
    headIs (stringifyItems (x :: xs) ++ r) ']' = false := by
  cases xs with
  | nil =>
    show headIs (stringifyJ x ++ r) ']' = false
    exact (stringifyJ_head_not_close x r).1
  | cons y ys =>
    rw [show stringifyItems (x :: y :: ys) = stringifyJ x ++ ',' :: stringifyItems (y :: ys)
      from rfl]
    rw [List.append_assoc]
    exact (stringifyJ_head_not_close x _).1

theorem stringifyFields_head (k : String) (v : Json) (fs : List (String × Json)) :
    ∃ tl, stringifyFields ((k, v) :: fs) = '\"' :: tl := by
  cases fs with
  | nil => exact ⟨_, rfl⟩
  | cons f fs => exact ⟨_, rfl⟩

theorem stringifyFields_head_not_close (k : String) (v : Json) (fs : List (String × Json))
    (r : List Char) : headIs (stringifyFields ((k, v) :: fs) ++ r) '\x7d' = false := by
  obtain ⟨tl, htl⟩ := stringifyFields_head k v fs
  rw [htl, List.cons_append]
  rfl

mutual

theorem parseVal_stringifyJ (j : Json) :
    ∀ (f : Nat) (rest : List Char), digStart rest = false →
      2 * (stringifyJ j).length ≤ f → parseVal f (stringifyJ j ++ rest) = some (j, rest) := by
  cases j with
  | null =>
    intro f rest _ hf
    obtain ⟨g, rfl⟩ : ∃ g, f = g + 1 :=
      ⟨f - 1, by have := stringifyJ_length_pos Json.null; omega⟩
    rfl
  | bool b =>
    intro f rest _ hf
    obtain ⟨g, rfl⟩ : ∃ g, f = g + 1 :=
      ⟨f - 1, by have := stringifyJ_length_pos (Json.bool b); omega⟩
    cases b with
    | false => rfl
    | true => rfl
  | num n =>
    intro f rest hrest hf
    obtain ⟨g, rfl⟩ : ∃ g, f = g + 1 :=
      ⟨f - 1, by have := stringifyJ_length_pos (Json.num n); omega⟩
    show parseVal (g + 1) (intDigits n ++ rest) = some (Json.num n, rest)
    rw [parseVal_numStart g _ (isNumStart_intDigits n rest), parseIntTok_intDigits n rest hrest]
    rfl
  | str s =>
    intro f rest _ hf
    obtain ⟨g, rfl⟩ : ∃ g, f = g + 1 :=
      ⟨f - 1, by have := stringifyJ_length_pos (Json.str s); omega⟩
    obtain ⟨sd⟩ := s
    have step : parseVal (g + 1) (stringifyJ (Json.str ⟨sd⟩) ++ rest) =
        (parseStrBody ((escStr sd ++ ['\"']) ++ rest)).map (fun p => (Json.str ⟨p.1⟩, p.2)) := rfl
    rw [step, List.append_assoc, List.singleton_append, parseStrBody_escStr sd rest]
    rfl
  | arr xs =>
    cases xs with
    | nil =>
      intro f rest _ hf
      obtain ⟨g, rfl⟩ : ∃ g, f = g + 1 :=
        ⟨f - 1, by have := stringifyJ_length_pos (Json.arr []); omega⟩
      rfl
    | cons x xs =>
      intro f rest _ hf
      obtain ⟨g, rfl⟩ : ∃ g, f = g + 1 :=
        ⟨f - 1, by have := stringifyJ_length_pos (Json.arr (x :: xs)); omega⟩
      have step : parseVal (g + 1) (stringifyJ (Json.arr (x :: xs)) ++ rest) =
          (if headIs ((stringifyItems (x :: xs) ++ [']']) ++ rest) ']' then
            some (Json.arr [], ((stringifyItems (x :: xs) ++ [']']) ++ rest).tail)
          else (parseItems g ((stringifyItems (x :: xs) ++ [']']) ++ rest)).map
            (fun p => (Json.arr p.1, p.2))) := rfl
      rw [step, List.append_assoc, List.singleton_append]
      rw [stringifyItems_head_not_close x xs (']' :: rest)]
      simp only [Bool.false_eq_true, if_false]
      have hlen : (stringifyJ (Json.arr (x :: xs))).length =
          (stringifyItems (x :: xs)).length + 2 := by
        rw [show stringifyJ (Json.arr (x :: xs)) = '[' :: (stringifyItems (x :: xs) ++ [']'])
          from rfl]
        simp
      rw [parseItems_stringifyItems x xs g rest (by omega)]
      rfl
  | obj fs =>
    cases fs with
    | nil =>
      intro f rest _ hf
      obtain ⟨g, rfl⟩ : ∃ g, f = g + 1 :=
        ⟨f - 1, by have := stringifyJ_length_pos (Json.obj []); omega⟩
      rfl
    | cons kv fs =>
      intro f rest _ hf
      obtain ⟨g, rfl⟩ : ∃ g, f = g + 1 :=
        ⟨f - 1, by have := stringifyJ_length_pos (Json.obj (kv :: fs)); omega⟩
      obtain ⟨k, v⟩ := kv
      have step : parseVal (g + 1) (stringifyJ (Json.obj ((k, v) :: fs)) ++ rest) =
          (if headIs ((stringifyFields ((k, v) :: fs) ++ ['\x7d']) ++ rest) '\x7d' then
            some (Json.obj [], ((stringifyFields ((k, v) :: fs) ++ ['\x7d']) ++ rest).tail)
          else (parseFields g ((stringifyFields ((k, v) :: fs) ++ ['\x7d']) ++ rest)).map
            (fun p => (Json.obj p.1, p.2))) := rfl
      rw [step, List.append_assoc, List.singleton_append]
      rw [stringifyFields_head_not_close k v fs ('\x7d' :: rest)]
      simp only [Bool.false_eq_true, if_false]
      have hlen : (stringifyJ (Json.obj ((k, v) :: fs))).length =
          (stringifyFields ((k, v) :: fs)).length + 2 := by
        rw [show stringifyJ (Json.obj ((k, v) :: fs)) =
          '\x7b' :: (stringifyFields ((k, v) :: fs) ++ ['\x7d']) from rfl]
        simp
      rw [parseFields_stringifyFields (k, v) fs g rest (by omega)]
      rfl
termination_by sizeOf j
decreasing_by all_goals (simp_wf <;> omega)

theorem parseItems_stringifyItems (x : Json) (xs : List Json) :
    ∀ (f : Nat) (rest : List Char), 2 * (stringifyItems (x :: xs)).length + 1 ≤ f →
      parseItems f (stringifyItems (x :: xs) ++ ']' :: rest) = some (x :: xs, rest) := by
  cases xs with
  | nil =>
    intro f rest hf
    obtain ⟨g, rfl⟩ : ∃ g, f = g + 1 := ⟨f - 1, by omega⟩
    have hlen : stringifyItems [x] = stringifyJ x := rfl
    rw [hlen] at hf ⊢
    have hx := parseVal_stringifyJ x g (']' :: rest) (by rfl) (by omega)
    have step : parseItems (g + 1) (stringifyJ x ++ ']' :: rest) =
        (match parseVal g (stringifyJ x ++ ']' :: rest) with
         | none => none
         | some (v, r) =>
           match r with
           | ',' :: r2 => (parseItems g r2).map (fun p => (v :: p.1, p.2))
           | ']' :: r2 => some ([v], r2)
           | _ => none) := rfl
    rw [step, hx]
    rfl
  | cons y ys =>
    intro f rest hf
    obtain ⟨g, rfl⟩ : ∃ g, f = g + 1 := ⟨f - 1, by omega⟩
    have hshape : stringifyItems (x :: y :: ys) ++ ']' :: rest =
        stringifyJ x ++ (',' :: (stringifyItems (y :: ys) ++ ']' :: rest)) := by
      rw [show stringifyItems (x :: y :: ys) = stringifyJ x ++ ',' :: stringifyItems (y :: ys)
        from rfl]
      rw [List.append_assoc, List.cons_append]
    have hlen : (stringifyItems (x :: y :: ys)).length =
        (stringifyJ x).length + 1 + (stringifyItems (y :: ys)).length := by
      rw [show stringifyItems (x :: y :: ys) = stringifyJ x ++ ',' :: stringifyItems (y :: ys)
        from rfl]
      simp
      omega
    rw [hshape]
    have hx := parseVal_stringifyJ x g (',' :: (stringifyItems (y :: ys) ++ ']' :: rest))
      (by rfl) (by omega)
    have step : parseItems (g + 1) (stringifyJ x ++ (',' :: (stringifyItems (y :: ys) ++
        ']' :: rest))) =
        (match parseVal g (stringifyJ x ++ (',' :: (stringifyItems (y :: ys) ++ ']' :: rest))) with
         | none => none
         | some (v, r) =>
           match r with
           | ',' :: r2 => (parseItems g r2).map (fun p => (v :: p.1, p.2))
           | ']' :: r2 => some ([v], r2)
           | _ => none) := rfl
    rw [step, hx]
    show (parseItems g (stringifyItems (y :: ys) ++ ']' :: rest)).map
      (fun p => (x :: p.1, p.2)) = some (x :: y :: ys, rest)
    rw [parseItems_stringifyItems y ys g rest (by omega)]
    rfl
termination_by 1 + sizeOf x + sizeOf xs
decreasing_by all_goals (simp_wf <;> omega)

theorem parseFields_stringifyFields (kv : String × Json) (fs : List (String × Json)) :
    ∀ (f : Nat) (rest : List Char), 2 * (stringifyFields (kv :: fs)).length + 1 ≤ f →
      parseFields f (stringifyFields (kv :: fs) ++ '\x7d' :: rest) = some (kv :: fs, rest) := by
  obtain ⟨k, v⟩ := kv
  obtain ⟨kd⟩ := k
  cases fs with
  | nil =>
    intro f rest hf
    obtain ⟨g, rfl⟩ : ∃ g, f = g + 1 := ⟨f - 1, by omega⟩
    have hlen : (stringifyFields [(⟨kd⟩, v)]).length =
        (escStr kd).length + 3 + (stringifyJ v).length := by
      rw [show stringifyFields [(⟨kd⟩, v)] =
        '\"' :: (escStr kd ++ '\"' :: ':' :: stringifyJ v) from rfl]
      simp
      omega
    have step : parseFields (g + 1) (stringifyFields [(⟨kd⟩, v)] ++ '\x7d' :: rest) =
        (match parseStrBody ((escStr kd ++ '\"' :: ':' :: stringifyJ v) ++ '\x7d' :: rest) with
         | none => none
         | some (kcs, r1) =>
           match r1 with
           | ':' :: r2 =>
             match parseVal g r2 with
             | none => none
             | some (w, r3) =>
               match r3 with
               | ',' :: r4 => (parseFields g r4).map (fun p => ((⟨kcs⟩, w) :: p.1, p.2))
               | '\x7d' :: r4 => some ([(⟨kcs⟩, w)], r4)
               | _ => none
           | _ => none) := rfl
    rw [step]
    rw [show (escStr kd ++ '\"' :: ':' :: stringifyJ v) ++ '\x7d' :: rest =
      escStr kd ++ '\"' :: (':' :: (stringifyJ v ++ '\x7d' :: rest)) from by simp]
    rw [parseStrBody_escStr kd (':' :: (stringifyJ v ++ '\x7d' :: rest))]
    show (match parseVal g (stringifyJ v ++ '\x7d' :: rest) with
          | none => none
          | some (w, r3) =>
            match r3 with
            | ',' :: r4 => (parseFields g r4).map (fun p => ((⟨kd⟩, w) :: p.1, p.2))
            | '\x7d' :: r4 => some ([(⟨kd⟩, w)], r4)
            | _ => none) = some ([(⟨kd⟩, v)], rest)
    rw [parseVal_stringifyJ v g ('\x7d' :: rest) (by rfl) (by omega)]
    rfl
  | cons f2 fs2 =>
    intro f rest hf
    obtain ⟨g, rfl⟩ : ∃ g, f = g + 1 := ⟨f - 1, by omega⟩
    have hlen : (stringifyFields ((⟨kd⟩, v) :: f2 :: fs2)).length =
        (escStr kd).length + 4 + (stringifyJ v).length +
          (stringifyFields (f2 :: fs2)).length := by
      rw [show stringifyFields ((⟨kd⟩, v) :: f2 :: fs2) =
        '\"' :: (escStr kd ++ '\"' :: ':' :: (stringifyJ v ++ ',' :: stringifyFields (f2 :: fs2)))
        from rfl]
      simp
      omega
    have step : parseFields (g + 1) (stringifyFields ((⟨kd⟩, v) :: f2 :: fs2) ++
        '\x7d' :: rest) =
        (match parseStrBody ((escStr kd ++ '\"' :: ':' ::
            (stringifyJ v ++ ',' :: stringifyFields (f2 :: fs2))) ++ '\x7d' :: rest) with
         | none => none
         | some (kcs, r1) =>
           match r1 with
           | ':' :: r2 =>
             match parseVal g r2 with
             | none => none
             | some (w, r3) =>
               match r3 with
               | ',' :: r4 => (parseFields g r4).map (fun p => ((⟨kcs⟩, w) :: p.1, p.2))
               | '\x7d' :: r4 => some ([(⟨kcs⟩, w)], r4)
               | _ => none
           | _ => none) := rfl
    rw [step]
    rw [show (escStr kd ++ '\"' :: ':' ::
        (stringifyJ v ++ ',' :: stringifyFields (f2 :: fs2))) ++ '\x7d' :: rest =
      escStr kd ++ '\"' :: (':' :: ((stringifyJ v ++ ',' :: stringifyFields (f2 :: fs2)) ++
        '\x7d' :: rest)) from by simp]
    rw [parseStrBody_escStr kd
      (':' :: ((stringifyJ v ++ ',' :: stringifyFields (f2 :: fs2)) ++ '\x7d' :: rest))]
    rw [show (stringifyJ v ++ ',' :: stringifyFields (f2 :: fs2)) ++ '\x7d' :: rest =
      stringifyJ v ++ (',' :: (stringifyFields (f2 :: fs2) ++ '\x7d' :: rest)) from by simp]
    show (match parseVal g (stringifyJ v ++ (',' :: (stringifyFields (f2 :: fs2) ++
          '\x7d' :: rest))) with
          | none => none
          | some (w, r3) =>
            match r3 with
            | ',' :: r4 => (parseFields g r4).map (fun p => ((⟨kd⟩, w) :: p.1, p.2))
            | '\x7d' :: r4 => some ([(⟨kd⟩, w)], r4)
            | _ => none) = some ((⟨kd⟩, v) :: f2 :: fs2, rest)
    rw [parseVal_stringifyJ v g (',' :: (stringifyFields (f2 :: fs2) ++ '\x7d' :: rest))
      (by rfl) (by omega)]
    show (parseFields g (stringifyFields (f2 :: fs2) ++ '\x7d' :: rest)).map
      (fun p => ((⟨kd⟩, v) :: p.1, p.2)) = some ((⟨kd⟩, v) :: f2 :: fs2, rest)
    rw [parseFields_stringifyFields f2 fs2 g rest (by omega)]
    rfl
termination_by 1 + sizeOf kv + sizeOf fs
decreasing_by all_goals (simp_wf <;> omega)

end

theorem parseJson_stringifyJson (j : Json) : parseJson (stringifyJson j) = some j := by
  have h := parseVal_stringifyJ j (2 * (stringifyJ j).length + 1) [] rfl (by omega)
  rw [List.append_nil] at h
  simp only [parseJson, stringifyJson]
  rw [h]

theorem lookupKV_putKV_self (st : EtcdState) (k v : String) :
    lookupKV (putKV st k v) k = some v := by
  simp [putKV, lookupKV]

theorem lookupKV_filter_not_pfx (st : EtcdState) (pre k : String) :
    lookupKV (st.filter (fun e => !(strHasPfx e.1 pre))) k =
      if strHasPfx k pre then none else lookupKV st k := by
  induction st with
  | nil => by_cases h : strHasPfx k pre <;> simp [lookupKV, h]
  | cons e st ih =>
    obtain ⟨k', v'⟩ := e
    by_cases hp : strHasPfx k' pre
    · rw [show (((k', v') :: st : EtcdState).filter (fun e => !(strHasPfx e.1 pre))) =
        st.filter (fun e => !(strHasPfx e.1 pre)) from by simp [List.filter_cons, hp]]
      rw [ih]
      by_cases hk : k' = k
      · subst hk
        simp [hp, lookupKV]
      · by_cases hkp : strHasPfx k pre <;> simp [hkp, lookupKV, hk]
    · rw [show (((k', v') :: st : EtcdState).filter (fun e => !(strHasPfx e.1 pre))) =
        (k', v') :: st.filter (fun e => !(strHasPfx e.1 pre)) from by simp [List.filter_cons, hp]]
      by_cases hk : k' = k
      · subst hk
        simp [lookupKV, hp]
      · simp only [lookupKV, if_neg hk]
        rw [ih]


theorem strHasPfx_refl (s : String) : strHasPfx s s = true := by
  rw [strHasPfx, List.isPrefixOf_iff_prefix]

theorem key_data (cfg : Etcd3StoreOptions) (sid : String) :
    (key cfg sid).data = (key cfg "").data ++ sid.data := by
  simp [key, String.data_append]

theorem strHasPfx_key_self (cfg : Etcd3StoreOptions) (sid : String) :
    strHasPfx (key cfg sid) (key cfg "") = true := by
  rw [strHasPfx, List.isPrefixOf_iff_prefix, key_data cfg sid]
  exact List.prefix_append _ _

theorem pfx_disjoint (P Q k : String) (h1 : strHasPfx Q P = false) (h2 : strHasPfx P Q = false)
    (hk : strHasPfx k P = true) : strHasPfx k Q = false := by
  cases hQ : strHasPfx k Q with
  | false => rfl
  | true =>
    exfalso
    have hP' : P.data <+: k.data := List.isPrefixOf_iff_prefix.1 hk
    have hQ' : Q.data <+: k.data := List.isPrefixOf_iff_prefix.1 hQ
    rcases List.prefix_or_prefix_of_prefix hP' hQ' with h | h
    · rw [show strHasPfx Q P = true from List.isPrefixOf_iff_prefix.2 h] at h1
      simp at h1
    · rw [show strHasPfx P Q = true from List.isPrefixOf_iff_prefix.2 h] at h2
      simp at h2

/-- Claim C2: the claim says a malformed `ttl` override (any truthy value that is not a
number, string or callable) surfaces through the callback; on the code, `set` resolves the
TTL before entering its `try` block, so the `TypeError` escapes `set` (and a non-skipping
`touch`) as a synchronous throw and the callback is never invoked. This theorem evaluates
the code at the failing input. -/
theorem set_malformed_ttl_throws_sync (pfx : Option String) (skip : Bool) (ref : AdapterRef)
    (st : EtcdState) (b : OpBehavior) (sid : String) (sess : Json) :
    (Etcd3Store.mk ⟨pfx, skip⟩ (StoreTtl.other true) ref).set st b sid sess =
        SetOutcome.thrown (JsError.typeError "`store.ttl` must be a number or function.") ∧
      (Etcd3Store.mk ⟨pfx, false⟩ (StoreTtl.other true) ref).touch st b sid sess =
        SetOutcome.thrown (JsError.typeError "`store.ttl` must be a number or function.") := by
  exact ⟨rfl, rfl⟩

/-- Claim C3 counterexample: `destroy` issues a namespace (prefix) delete of `key(sid)`,
so destroying sid `"a"` also deletes the record of the distinct sid `"ab"`, contradicting
"deletes exactly the single key and leaves every other key unchanged". -/
theorem destroy_affects_extension_sids :
    ("ab" : String) ≠ "a" ∧
      key (⟨some "sess", false⟩ : Etcd3StoreOptions) "ab" ≠
        key (⟨some "sess", false⟩ : Etcd3StoreOptions) "a" ∧
      lookupKV [("sess/a", "null"), ("sess/ab", "null")]
        (key (⟨some "sess", false⟩ : Etcd3StoreOptions) "ab") = some "null" ∧
      lookupKV ((Etcd3Store.mk ⟨some "sess", false⟩ (StoreTtl.other false) ⟨0⟩).destroy
          [("sess/a", "null"), ("sess/ab", "null")] .resolve "a").2
        (key (⟨some "sess", false⟩ : Etcd3StoreOptions) "ab") = none := by
  exact ⟨by decide, by decide, rfl, rfl⟩

/-- Claim C3 (amended): `destroy(sid)` deletes exactly the keys that start with
`<prefix>/<sid>` (leaving all other keys unchanged), and `destroy` followed by `get`
on the destroyed sid returns null with no error. -/
theorem destroy_deletes_sid_namespace (store : Etcd3Store) (st : EtcdState) (sid : String) :
    (∀ k, lookupKV (store.destroy st .resolve sid).2 k =
        if strHasPfx k (key store.config sid) then none else lookupKV st k) ∧
      store.get (store.destroy st .resolve sid).2 .resolve sid = [⟨none, Json.null⟩] := by
  constructor
  · intro k
    exact lookupKV_filter_not_pfx st (key store.config sid) k
  · simp only [Etcd3Store.get]
    rw [show (store.destroy st .resolve sid).2 =
      st.filter (fun e => !(strHasPfx e.1 (key store.config sid))) from rfl]
    rw [lookupKV_filter_not_pfx st (key store.config sid) (key store.config sid)]
    rw [strHasPfx_refl]
    rfl

/-- Claim C8: with the `prefix` option absent or configured as the falsy empty string,
keys are built with the default namespace `"sess"` — `key(sid) = "sess/" ++ sid` — and
every operation behaves exactly as under an explicitly configured `"sess"` prefix. -/
theorem default_pfx_used (skip : Bool) (tc : StoreTtl) (r : AdapterRef) (st : EtcdState)
    (b : OpBehavior) (sid : String) (sess : Json) :
    key ⟨none, skip⟩ sid = "sess/" ++ sid ∧
      key ⟨some "", skip⟩ sid = "sess/" ++ sid ∧
      (Etcd3Store.mk ⟨none, skip⟩ tc r).get st b sid =
        (Etcd3Store.mk ⟨some "sess", skip⟩ tc r).get st b sid ∧
      (Etcd3Store.mk ⟨none, skip⟩ tc r).set st b sid sess =
        (Etcd3Store.mk ⟨some "sess", skip⟩ tc r).set st b sid sess ∧
      (Etcd3Store.mk ⟨none, skip⟩ tc r).touch st b sid sess =
        (Etcd3Store.mk ⟨some "sess", skip⟩ tc r).touch st b sid sess ∧
      (Etcd3Store.mk ⟨none, skip⟩ tc r).all st b =
        (Etcd3Store.mk ⟨some "sess", skip⟩ tc r).all st b ∧
      (Etcd3Store.mk ⟨none, skip⟩ tc r).length st b =
        (Etcd3Store.mk ⟨some "sess", skip⟩ tc r).length st b ∧
      (Etcd3Store.mk ⟨none, skip⟩ tc r).destroy st b sid =
        (Etcd3Store.mk ⟨some "sess", skip⟩ tc r).destroy st b sid ∧
      (Etcd3Store.mk ⟨none, skip⟩ tc r).clear st b =
        (Etcd3Store.mk ⟨some "sess", skip⟩ tc r).clear st b ∧
      (Etcd3Store.mk ⟨some "", skip⟩ tc r).get st b sid =
        (Etcd3Store.mk ⟨some "sess", skip⟩ tc r).get st b sid ∧
      (Etcd3Store.mk ⟨some "", skip⟩ tc r).set st b sid sess =
        (Etcd3Store.mk ⟨some "sess", skip⟩ tc r).set st b sid sess ∧
      (Etcd3Store.mk ⟨some "", skip⟩ tc r).touch st b sid sess =
        (Etcd3Store.mk ⟨some "sess", skip⟩ tc r).touch st b sid sess ∧
      (Etcd3Store.mk ⟨some "", skip⟩ tc r).all st b =
        (Etcd3Store.mk ⟨some "sess", skip⟩ tc r).all st b ∧
      (Etcd3Store.mk ⟨some "", skip⟩ tc r).length st b =
        (Etcd3Store.mk ⟨some "sess", skip⟩ tc r).length st b ∧
      (Etcd3Store.mk ⟨some "", skip⟩ tc r).destroy st b sid =
        (Etcd3Store.mk ⟨some "sess", skip⟩ tc r).destroy st b sid ∧
      (Etcd3Store.mk ⟨some "", skip⟩ tc r).clear st b =
        (Etcd3Store.mk ⟨some "sess", skip⟩ tc r).clear st b := by
  exact ⟨rfl, rfl, rfl, rfl, rfl, rfl, rfl, rfl, rfl, rfl, rfl, rfl, rfl, rfl, rfl, rfl⟩

/-- Claim C4 counterexample: the prefixes `"a"` and `"a/b"` are distinct, yet clearing
the adapter configured with `"a"` deletes the record stored under `"a/b"`'s namespace,
refuting isolation for arbitrary distinct prefix pairs. -/
theorem clear_crosses_slash_pfx :
    (some "a" : Option String) ≠ some "a/b" ∧
      lookupKV [("a/b/x", "null")] (key (⟨some "a/b", false⟩ : Etcd3StoreOptions) "x") =
        some "null" ∧
      lookupKV ((Etcd3Store.mk ⟨some "a", false⟩ (StoreTtl.other false) ⟨0⟩).clear
          [("a/b/x", "null")] .resolve).2
        (key (⟨some "a/b", false⟩ : Etcd3StoreOptions) "x") = none := by
  exact ⟨by decide, rfl, rfl⟩

/-- Claim C4 (amended): namespace isolation holds for every pair of configurations whose
effective namespaces (prefix followed by `/`) are not prefixes of one another: `clear`
on P leaves every key under Q's namespace unchanged, and `all`/`length` on P are
insensitive to the presence of records under Q's namespace. -/
theorem namespace_isolation (P Q : Etcd3Store) (st : EtcdState)
    (h1 : strHasPfx (key Q.config "") (key P.config "") = false)
    (h2 : strHasPfx (key P.config "") (key Q.config "") = false) :
    (∀ sid2, lookupKV (P.clear st .resolve).2 (key Q.config sid2) =
        lookupKV st (key Q.config sid2)) ∧
      (∀ b, P.all (st.filter (fun e => !(strHasPfx e.1 (key Q.config "")))) b = P.all st b) ∧
      (∀ b, P.length (st.filter (fun e => !(strHasPfx e.1 (key Q.config "")))) b =
        P.length st b) := by
  have hdisj : ∀ k, strHasPfx k (key P.config "") = true →
      strHasPfx k (key Q.config "") = false :=
    fun k hk => pfx_disjoint (key P.config "") (key Q.config "") k h1 h2 hk
  have hobs : observedEntries P (st.filter (fun e => !(strHasPfx e.1 (key Q.config "")))) =
      observedEntries P st := by
    unfold observedEntries
    rw [List.filter_filter]
    apply List.filter_congr
    intro e _
    cases he : strHasPfx e.1 (key P.config "") with
    | false => simp [he]
    | true => simp [he, hdisj e.1 he]
  refine ⟨?_, ?_, ?_⟩
  · intro sid2
    rw [show (P.clear st .resolve).2 =
      st.filter (fun e => !(strHasPfx e.1 (key P.config ""))) from rfl]
    rw [lookupKV_filter_not_pfx st (key P.config "") (key Q.config sid2)]
    have hfalse : strHasPfx (key Q.config sid2) (key P.config "") = false := by
      cases hc : strHasPfx (key Q.config sid2) (key P.config "") with
      | false => rfl
      | true =>
        have hq := hdisj _ hc
        rw [strHasPfx_key_self] at hq
        exact absurd hq (by simp)
    rw [hfalse]
    simp
  · intro b
    cases b with
    | syncThrow e => rfl
    | reject e => rfl
    | resolve => simp [Etcd3Store.all, hobs]
  · intro b
    cases b with
    | syncThrow e => rfl
    | reject e => rfl
    | resolve => simp [Etcd3Store.length, hobs]

/-- Claim C4 witness at a concrete pair of prefixes and a concrete state. -/
theorem namespace_isolation_witness :
    strHasPfx (key (⟨some "anotherPrefix", false⟩ : Etcd3StoreOptions) "")
        (key (⟨some "sess", false⟩ : Etcd3StoreOptions) "") = false ∧
      strHasPfx (key (⟨some "sess", false⟩ : Etcd3StoreOptions) "")
        (key (⟨some "anotherPrefix", false⟩ : Etcd3StoreOptions) "") = false ∧
      lookupKV (((Etcd3Store.mk ⟨some "sess", false⟩ (StoreTtl.other false) ⟨0⟩).clear
          [("sess/a", "null"), ("anotherPrefix/a", "null")] .resolve).2)
        (key (⟨some "anotherPrefix", false⟩ : Etcd3StoreOptions) "a") =
      lookupKV [("sess/a", "null"), ("anotherPrefix/a", "null")]
        (key (⟨some "anotherPrefix", false⟩ : Etcd3StoreOptions) "a") :=
  ⟨by decide, by decide,
    (namespace_isolation (Etcd3Store.mk ⟨some "sess", false⟩ (StoreTtl.other false) ⟨0⟩)
      (Etcd3Store.mk ⟨some "anotherPrefix", false⟩ (StoreTtl.other false) ⟨0⟩)
      [("sess/a", "null"), ("anotherPrefix/a", "null")] (by decide) (by decide)).1 "a"⟩

/-- Claim C5: with `skipTouch` configured, `touch` invokes the callback with a null error
immediately, issues no store operation and leaves the state unchanged; with `skipTouch`
off (the default), `touch` is the very same operation as `set`. -/
theorem touch_skip_or_set (store : Etcd3Store) (st : EtcdState) (b : OpBehavior) (sid : String)
    (sess : Json) :
    (store.config.skipTouch = true →
      store.touch st b sid sess = SetOutcome.completed [Ev.cb ⟨none, Json.null⟩] st) ∧
      (store.config.skipTouch = false →
        store.touch st b sid sess = store.set st b sid sess) := by
  constructor <;> intro h <;> simp [Etcd3Store.touch, h]

/-- Claim C5 witness at concrete skipping and non-skipping configurations. -/
theorem touch_skip_or_set_witness :
    (Etcd3Store.mk ⟨some "sess", true⟩ (StoreTtl.num (JsNum.val 1)) ⟨0⟩).touch [] .resolve
        "s" Json.null = SetOutcome.completed [Ev.cb ⟨none, Json.null⟩] [] ∧
      (Etcd3Store.mk ⟨some "sess", false⟩ (StoreTtl.num (JsNum.val 1)) ⟨0⟩).touch [] .resolve
        "s" Json.null =
      (Etcd3Store.mk ⟨some "sess", false⟩ (StoreTtl.num (JsNum.val 1)) ⟨0⟩).set [] .resolve
        "s" Json.null :=
  ⟨(touch_skip_or_set _ _ _ _ _).1 rfl, (touch_skip_or_set _ _ _ _ _).2 rfl⟩

/-- Claim C1: for every session record shaped as the framework shapes it (an object with an
object-valued `cookie`), the TTL resolution used by `set` and `touch` — `getTTL` — equals the
specification's reference resolution, including the final cap at the maximum lease duration
6442450 (values above it are capped, never rejected). -/
theorem ttl_resolution_matches_spec (store : Etcd3Store) (sess : Json) (sid : String)
    (h : isWfSession sess = true) :
    getTTL store sess sid = specResolveTTL store sess sid := by
  obtain ⟨cfg, tc, r⟩ := store
  cases sess with
  | null => simp [isWfSession] at h
  | bool b => simp [isWfSession] at h
  | num n => simp [isWfSession] at h
  | str s => simp [isWfSession] at h
  | arr xs => simp [isWfSession] at h
  | obj fs =>
    cases hc : lookupField fs "cookie" with
    | none => simp [isWfSession, hc] at h
    | some cv =>
      cases cv with
      | null => simp [isWfSession, hc] at h
      | bool b => simp [isWfSession, hc] at h
      | num n => simp [isWfSession, hc] at h
      | str s => simp [isWfSession, hc] at h
      | arr xs => simp [isWfSession, hc] at h
      | obj cfs =>
        cases tc with
        | num n => rfl
        | str s => rfl
        | func f => rfl
        | other t =>
          cases t with
          | true => rfl
          | false =>
            simp only [getTTL, getRawTTL, specResolveTTL, sessionCookieMaxAge, jsMember, hc,
              oneDay, maxTTL]
            cases hm : lookupField cfs "maxAge" with
            | none => simp [hm]
            | some mv => cases mv <;> simp [hm]

/-- Claim C1 witness: a concrete well-formed record and a string override. -/
theorem ttl_resolution_matches_spec_witness :
    isWfSession (Json.obj [("cookie", Json.obj [("maxAge", Json.num 10000)])]) = true ∧
      getTTL (Etcd3Store.mk ⟨some "sess", false⟩ (StoreTtl.str "42") ⟨0⟩)
          (Json.obj [("cookie", Json.obj [("maxAge", Json.num 10000)])]) "sid" =
        specResolveTTL (Etcd3Store.mk ⟨some "sess", false⟩ (StoreTtl.str "42") ⟨0⟩)
          (Json.obj [("cookie", Json.obj [("maxAge", Json.num 10000)])]) "sid" :=
  ⟨rfl, ttl_resolution_matches_spec _ _ _ rfl⟩

/-- Claim C9: a string-valued `ttl` override that does not parse as a number resolves to
`NaN` rather than signaling a configuration error; `set` then proceeds to request a lease
of `NaN` seconds and completes normally instead of reporting a type error. -/
theorem string_ttl_nan (s : String) (hs : jsStringToNumber s = JsNum.nan)
    (cfg : Etcd3StoreOptions) (r : AdapterRef) (st : EtcdState) (sid : String) (sess : Json) :
    getRawTTL (Etcd3Store.mk cfg (StoreTtl.str s) r) sess sid = Except.ok JsNum.nan ∧
      getTTL (Etcd3Store.mk cfg (StoreTtl.str s) r) sess sid = Except.ok JsNum.nan ∧
      (Etcd3Store.mk cfg (StoreTtl.str s) r).set st .resolve sid sess =
        SetOutcome.completed
          [Ev.lease JsNum.nan, Ev.put (key cfg sid) (stringifyJson sess), Ev.release,
            Ev.cb ⟨none, Json.null⟩]
          (putKV st (key cfg sid) (stringifyJson sess)) := by
  have h1 : getRawTTL (Etcd3Store.mk cfg (StoreTtl.str s) r) sess sid = Except.ok JsNum.nan := by
    simp [getRawTTL, hs]
  have h2 : getTTL (Etcd3Store.mk cfg (StoreTtl.str s) r) sess sid = Except.ok JsNum.nan := by
    simp [getTTL, h1, jsGtB]
  refine ⟨h1, h2, ?_⟩
  simp [Etcd3Store.set, h2]

/-- Claim C9 witness: the override `"abc"`. -/
theorem string_ttl_nan_witness :
    jsStringToNumber "abc" = JsNum.nan ∧
      getTTL (Etcd3Store.mk ⟨some "sess", false⟩ (StoreTtl.str "abc") ⟨0⟩) Json.null "sid" =
        Except.ok JsNum.nan :=
  ⟨rfl,
    (string_ttl_nan "abc" rfl ⟨some "sess", false⟩ ⟨0⟩ [] "sid" Json.null).2.1⟩

/-- Claim C10: on a successful put, `set` releases the lease handle after the put resolves
and before the success callback; on a failed (rejected) put, the lease is not released. -/
theorem lease_release_policy (store : Etcd3Store) (st : EtcdState) (sid : String) (sess : Json)
    (ttl : JsNum) (e : JsError) (h : getTTL store sess sid = Except.ok ttl) :
    store.set st .resolve sid sess =
        SetOutcome.completed
          [Ev.lease ttl, Ev.put (key store.config sid) (stringifyJson sess), Ev.release,
            Ev.cb ⟨none, Json.null⟩]
          (putKV st (key store.config sid) (stringifyJson sess)) ∧
      store.set st (.reject e) sid sess =
        SetOutcome.completed
          [Ev.lease ttl, Ev.put (key store.config sid) (stringifyJson sess),
            Ev.cb ⟨some e, Json.null⟩] st := by
  constructor <;> simp [Etcd3Store.set, h]

/-- Claim C10 witness at a concrete numeric override. -/
theorem lease_release_policy_witness :
    (Etcd3Store.mk ⟨some "sess", false⟩ (StoreTtl.num (JsNum.val 100)) ⟨0⟩).set [] .resolve
        "sid" Json.null =
      SetOutcome.completed
        [Ev.lease (JsNum.val 100),
          Ev.put (key (⟨some "sess", false⟩ : Etcd3StoreOptions) "sid")
            (stringifyJson Json.null), Ev.release, Ev.cb ⟨none, Json.null⟩]
        (putKV [] (key (⟨some "sess", false⟩ : Etcd3StoreOptions) "sid")
          (stringifyJson Json.null)) :=
  (lease_release_policy _ [] "sid" Json.null (JsNum.val 100) JsError.syntaxError (by rfl)).1

/-- Claim C6: a successful `set` immediately followed by `get` on the same sid yields the
very record that was stored — serialization followed by deserialization is the identity
on session records. -/
theorem set_get_roundtrip (store : Etcd3Store) (st : EtcdState) (sid : String) (sess : Json)
    (trace : List Ev) (st' : EtcdState)
    (h : store.set st .resolve sid sess = SetOutcome.completed trace st') :
    store.get st' .resolve sid = [⟨none, sess⟩] := by
  unfold Etcd3Store.set at h
  cases hT : getTTL store sess sid with
  | error e =>
    rw [hT] at h
    exact absurd h (by simp)
  | ok ttl =>
    rw [hT] at h
    have hst : st' = putKV st (key store.config sid) (stringifyJson sess) := by
      cases h
      rfl
    subst hst
    simp only [Etcd3Store.get]
    rw [lookupKV_putKV_self]
    show (match parseJson (stringifyJson sess) with
          | some j => [(⟨none, j⟩ : CbCall)]
          | none => [(⟨some JsError.syntaxError, Json.null⟩ : CbCall)]) = [⟨none, sess⟩]
    rw [parseJson_stringifyJson]

/-- Claim C6 witness: a concrete record stored and read back under the default prefix. -/
theorem set_get_roundtrip_witness :
    (Etcd3Store.mk ⟨some "sess", false⟩ (StoreTtl.other false) ⟨0⟩).get
        (putKV [] (key (⟨some "sess", false⟩ : Etcd3StoreOptions) "abc")
          (stringifyJson (Json.obj [("cookie", Json.obj [("maxAge", Json.num 10000)])])))
        .resolve "abc" =
      [⟨none, Json.obj [("cookie", Json.obj [("maxAge", Json.num 10000)])]⟩] :=
  set_get_roundtrip (Etcd3Store.mk ⟨some "sess", false⟩ (StoreTtl.other false) ⟨0⟩) [] "abc"
    (Json.obj [("cookie", Json.obj [("maxAge", Json.num 10000)])]) _ _ rfl

/-- Claim C7: every rejected asynchronous store request is reported exactly once through
the callback's error argument with a null payload, for each of the seven operations; a
stored value that fails to deserialize makes `get` and `all` report an error with a null
payload instead of throwing. -/
theorem failures_via_callback (store : Etcd3Store) (st : EtcdState) (e : JsError) (sid : String)
    (sess : Json) :
    store.get st (.reject e) sid = [⟨some e, Json.null⟩] ∧
      store.all st (.reject e) = [⟨some e, Json.null⟩] ∧
      store.length st (.reject e) = [⟨some e, Json.null⟩] ∧
      store.destroy st (.reject e) sid = ([⟨some e, Json.null⟩], st) ∧
      store.clear st (.reject e) = ([⟨some e, Json.null⟩], st) ∧
      (∀ ttl, getTTL store sess sid = Except.ok ttl →
        store.set st (.reject e) sid sess =
          SetOutcome.completed
            [Ev.lease ttl, Ev.put (key store.config sid) (stringifyJson sess),
              Ev.cb ⟨some e, Json.null⟩] st) ∧
      (∀ raw, lookupKV st (key store.config sid) = some raw → parseJson raw = none →
        store.get st .resolve sid = [⟨some JsError.syntaxError, Json.null⟩]) ∧
      (parseAll (observedEntries store st) = none →
        store.all st .resolve = [⟨some JsError.syntaxError, Json.null⟩]) := by
  refine ⟨rfl, rfl, rfl, rfl, rfl, ?_, ?_, ?_⟩
  · intro ttl h
    simp [Etcd3Store.set, h]
  · intro raw h1 h2
    simp [Etcd3Store.get, h1, h2]
  · intro h
    simp [Etcd3Store.all, h]

/-- Claim C7 witness: a concrete rejection and a concrete undeserializable stored value. -/
theorem failures_via_callback_witness :
    (Etcd3Store.mk ⟨some "sess", false⟩ (StoreTtl.num (JsNum.val 1)) ⟨0⟩).get
        [("sess/bad", "typo")] (.reject (JsError.external "boom")) "bad" =
      [⟨some (JsError.external "boom"), Json.null⟩] ∧
      (Etcd3Store.mk ⟨some "sess", false⟩ (StoreTtl.num (JsNum.val 1)) ⟨0⟩).set
          [("sess/bad", "typo")] (.reject (JsError.external "boom")) "bad" Json.null =
        SetOutcome.completed
          [Ev.lease (JsNum.val 1),
            Ev.put (key (⟨some "sess", false⟩ : Etcd3StoreOptions) "bad")
              (stringifyJson Json.null),
            Ev.cb ⟨some (JsError.external "boom"), Json.null⟩] [("sess/bad", "typo")] ∧
      (Etcd3Store.mk ⟨some "sess", false⟩ (StoreTtl.num (JsNum.val 1)) ⟨0⟩).get
          [("sess/bad", "typo")] .resolve "bad" = [⟨some JsError.syntaxError, Json.null⟩] ∧
      (Etcd3Store.mk ⟨some "sess", false⟩ (StoreTtl.num (JsNum.val 1)) ⟨0⟩).all
          [("sess/bad", "typo")] .resolve = [⟨some JsError.syntaxError, Json.null⟩] :=
  ⟨(failures_via_callback (Etcd3Store.mk ⟨some "sess", false⟩ (StoreTtl.num (JsNum.val 1)) ⟨0⟩)
      [("sess/bad", "typo")] (JsError.external "boom") "bad" Json.null).1,
    (failures_via_callback (Etcd3Store.mk ⟨some "sess", false⟩ (StoreTtl.num (JsNum.val 1)) ⟨0⟩)
      [("sess/bad", "typo")] (JsError.external "boom") "bad" Json.null).2.2.2.2.2.1
      (JsNum.val 1) rfl,
    (failures_via_callback (Etcd3Store.mk ⟨some "sess", false⟩ (StoreTtl.num (JsNum.val 1)) ⟨0⟩)
      [("sess/bad", "typo")] (JsError.external "boom") "bad" Json.null).2.2.2.2.2.2.1
      "typo" rfl rfl,
    (failures_via_callback (Etcd3Store.mk ⟨some "sess", false⟩ (StoreTtl.num (JsNum.val 1)) ⟨0⟩)
      [("sess/bad", "typo")] (JsError.external "boom") "bad" Json.null).2.2.2.2.2.2.2 rfl⟩
